import Mathlib

/-!
Verification development for the topology compiler in `src/config/compiler.rs`.

The compiler turns a `ConfigBuilder` (sources, transforms, sinks, tests) into
either a validated `Config` plus warnings, or a list of error strings.  The
phases embedded here follow the source file: name check, macro expansion
(`expand_macros`), glob expansion (`expand_globs` / `expand_globs_inner`),
the external shape/resource/output checks, graph construction, typecheck,
cycle check, input materialization, test resolution, and acknowledgement
propagation.

External collaborators whose code is not part of the embedded source
(`validation::check_*`, `Graph`, `TestDefinition::resolve_outputs`,
`validation::warnings`) are modelled as opaque oracle data threaded through
an `Oracles` record, exactly at the call positions the source uses them.
The `glob` crate's pattern matcher and the `Inputs` container are modelled
from the specification, as documented on each definition.
-/

namespace VectorConfig

/-- A component identifier.  `ComponentKey` in the source is a wrapper
around a string id; equality, ordering and rendering all go through the
id string, so we embed it as `String`. -/
abbrev ComponentKey := String

/-- `OutputId`: a (component, optional port) emission point. -/
structure OutputId where
  component : ComponentKey
  port : Option String
deriving DecidableEq, Repr

/-- String rendering of an `OutputId`: `component` or `component.port`. -/
def OutputId.render (o : OutputId) : String :=
  match o.port with
  | none => o.component
  | some p => o.component ++ "." ++ p

/-- Modelled from the spec: `Inputs<T>` (defined in `config/id.rs`, not part
of the embedded source) is "an ordered sequence of T with duplicate
suppression on insertion (first occurrence wins the position)".
`inputsExtend` is one insertion, i.e. `inputs.extend(Some(x))`. -/
def inputsExtend (xs : List String) (x : String) : List String :=
  if x ∈ xs then xs else xs ++ [x]

/-- One insertion into an `IndexSet<String>`: insertion order, duplicates
dropped (first occurrence wins). -/
def indexSetInsert (s : List String) (x : String) : List String :=
  if x ∈ s then s else s ++ [x]

/-- `collect::<IndexSet<String>>()`: fold the insertions over the list. -/
def indexSetOfList (l : List String) : List String :=
  l.foldl indexSetInsert []

/-- A compiled glob-pattern token.  Modelled from the spec: the `glob`
crate is an external dependency; the spec requires "at least `*` wildcard
semantics" with implementation-defined `?`/character-class extensions.
We model literals, `?`, `*` and simple (possibly negated) character
classes. -/
inductive GlobTok where
  | lit (c : Char)
  | anyChar
  | anySeq
  | cls (neg : Bool) (cs : List Char)
deriving DecidableEq, Repr

/-- Parser state: scanning normally, right after an opening `[`, or
inside a `[...]` character class (with the negation flag and the class
characters accumulated so far, in reverse). -/
inductive ParseState where
  | normal
  | classOpen
  | inClass (neg : Bool) (acc : List Char)

/-- Modelled from the spec: `glob::Pattern::new`.  Compiles a pattern
string into tokens; fails (returns `none`) on an unclosed character
class, the typical `PatternError`.  Structural recursion on the input
so that concrete patterns evaluate by reduction. -/
def globParseAux : ParseState → List Char → Option (List GlobTok)
  | .normal, [] => some []
  | .normal, c :: rest =>
    if c = '*' then (globParseAux .normal rest).map (GlobTok.anySeq :: ·)
    else if c = '?' then (globParseAux .normal rest).map (GlobTok.anyChar :: ·)
    else if c = '[' then globParseAux .classOpen rest
    else (globParseAux .normal rest).map (GlobTok.lit c :: ·)
  | .classOpen, [] => none
  | .classOpen, c :: rest =>
    if c = '!' then globParseAux (.inClass true []) rest
    else if c = ']' then (globParseAux .normal rest).map (GlobTok.cls false [] :: ·)
    else globParseAux (.inClass false [c]) rest
  | .inClass _ _, [] => none
  | .inClass neg acc, c :: rest =>
    if c = ']' then (globParseAux .normal rest).map (GlobTok.cls neg acc.reverse :: ·)
    else globParseAux (.inClass neg (c :: acc)) rest

/-- `glob::Pattern::new` on a character list. -/
def globParse (l : List Char) : Option (List GlobTok) :=
  globParseAux .normal l

/-- Fueled matcher.  The fuel only makes the recursion structural;
`globMatch` below supplies enough fuel that it never runs out (each
step consumes at least one token or one character). -/
def globMatchF : Nat → List GlobTok → List Char → Bool
  | 0, _, _ => false
  | _ + 1, [], s => s.isEmpty
  | fuel + 1, GlobTok.lit c :: ps, s =>
    match s with
    | [] => false
    | d :: ds => c == d && globMatchF fuel ps ds
  | fuel + 1, GlobTok.anyChar :: ps, s =>
    match s with
    | [] => false
    | _ :: ds => globMatchF fuel ps ds
  | fuel + 1, GlobTok.cls neg cs :: ps, s =>
    match s with
    | [] => false
    | d :: ds => (cs.contains d != neg) && globMatchF fuel ps ds
  | fuel + 1, GlobTok.anySeq :: ps, s =>
    match s with
    | [] => globMatchF fuel ps []
    | d :: ds => globMatchF fuel ps (d :: ds) || globMatchF fuel (GlobTok.anySeq :: ps) ds

/-- Modelled from the spec: `glob::Pattern::matches`.  `*` matches any
(possibly empty) sequence, `?` any single character, a class a single
character in (or, negated, not in) the class; literals match themselves. -/
def globMatch (ps : List GlobTok) (s : List Char) : Bool :=
  globMatchF (ps.length + s.length + 1) ps s

/-- The two-case matcher from the source: a compiled glob pattern, or the
literal-string fallback used when pattern compilation fails. -/
inductive InputMatcher where
  | pattern (toks : List GlobTok)
  | str (s : String)
deriving DecidableEq, Repr

/-- `InputMatcher::matches`. -/
def InputMatcher.matches : InputMatcher → String → Bool
  | .pattern p, c => globMatch p c.toList
  | .str s, c => s == c

/-- Build the matcher for one raw input: `glob::Pattern::new(&raw_input)`
mapped to `InputMatcher::Pattern`, with `InputMatcher::String` fallback
(the fallback also emits the warning log event, modelled separately). -/
def mkMatcher (raw : String) : InputMatcher :=
  match globParse raw.toList with
  | some toks => InputMatcher.pattern toks
  | none => InputMatcher.str raw

/-- The candidates one raw input picks up inside the candidate loop of
`expand_globs_inner`: candidates its matcher accepts, the consuming
component's own id excluded, in candidate-set iteration order. -/
def matchedCandidates (raw id : String) (candidates : List String) : List String :=
  candidates.filter fun c => (mkMatcher raw).matches c && c != id

/-- Body of the `for raw_input in raw_inputs` loop of `expand_globs_inner`:
append every matched candidate (`matched` is set exactly when some
candidate passes the test); if none matched, append the raw input
unchanged. -/
def processRawInput (id : String) (candidates : List String)
    (acc : List String) (raw : String) : List String :=
  if (matchedCandidates raw id candidates).isEmpty
  then inputsExtend ((matchedCandidates raw id candidates).foldl inputsExtend acc) raw
  else (matchedCandidates raw id candidates).foldl inputsExtend acc

/-- `expand_globs_inner(inputs, id, candidates)`.  Returns the rewritten
input list together with the warning log events (component id, pattern)
emitted by the `warn!` call for inputs that fail to compile as globs. -/
def expand_globs_inner (inputs : List String) (id : String)
    (candidates : List String) : List String × List (String × String) :=
  (inputs.foldl (processRawInput id candidates) [],
   inputs.filterMap (fun raw =>
     if (globParse raw.toList).isNone then some (id, raw) else none))

instance {ε α : Type _} [DecidableEq ε] [DecidableEq α] : DecidableEq (Except ε α) := fun a b =>
  match a, b with
  | .error e1, .error e2 =>
    if h : e1 = e2 then isTrue (by subst h; rfl) else isFalse (fun hh => h (by cases hh; rfl))
  | .error _, .ok _ => isFalse (fun hh => Except.noConfusion hh)
  | .ok _, .error _ => isFalse (fun hh => Except.noConfusion hh)
  | .ok a1, .ok a2 =>
    if h : a1 = a2 then isTrue (by subst h; rfl) else isFalse (fun hh => h (by cases hh; rfl))

/-- The payload of a transform entry that later phases read: its raw input
strings and the ports of the outputs it declares (`inner.outputs(...)`,
an external capability, embedded as data). -/
structure TCore where
  inputs : List String
  outputPorts : List (Option String)
deriving DecidableEq, Repr

/-- A transform entry of the builder (`TransformOuter`): its payload plus
the outcome of its `expand` capability.  `expand` is external
(`TransformConfig::expand`); its effect — the final transforms it inserts
into `expanded_transforms` and the entries it records in `expansions` —
is embedded as oracle data.  A transform with no expansion capability has
outcome `.ok ([(its key, its payload)], [])` (it passes through
unchanged and records nothing). -/
structure TransformOuter where
  core : TCore
  expandOutcome : Except String (List (ComponentKey × TCore) × List (ComponentKey × List ComponentKey))
deriving DecidableEq, Repr

/-- A source entry of the builder: the ports of its declared outputs. -/
structure SourceOuter where
  outputPorts : List (Option String)
deriving DecidableEq, Repr

/-- A sink entry of the builder: raw input strings plus its static
acknowledgement capability (read by acknowledgement propagation). -/
structure SinkOuter where
  inputs : List String
  acks : Bool
deriving DecidableEq, Repr

/-- A unit test of the builder.  `TestDefinition::resolve_outputs` is
external; its outcome for this compilation is embedded as oracle data. -/
abbrev TestOuter := Except (List String) Unit

/-- The builder consumed by `compile`. -/
structure ConfigBuilder where
  sources : List (ComponentKey × SourceOuter)
  transforms : List (ComponentKey × TransformOuter)
  sinks : List (ComponentKey × SinkOuter)
  tests : List TestOuter
deriving DecidableEq, Repr

/-- One step of the `while let Some((key, transform)) = config.transforms.pop()`
loop of `expand_macros`: on an expansion error push it; otherwise extend
`expanded_transforms` and `expansions` with what `expand` inserted. -/
def expandStep
    (st : List (ComponentKey × TCore) × List (ComponentKey × List ComponentKey) × List String)
    (kt : ComponentKey × TransformOuter) :
    List (ComponentKey × TCore) × List (ComponentKey × List ComponentKey) × List String :=
  match kt.2.expandOutcome with
  | .error e => (st.1, st.2.1, st.2.2 ++ [e])
  | .ok (newTs, newMaps) => (st.1 ++ newTs, st.2.1 ++ newMaps, st.2.2)

/-- `expand_macros(&mut builder)` from the source.  `IndexMap::pop`
removes the *last* entry, so the loop walks the transform map from the
back; the expanded transforms are therefore accumulated in reverse
declaration order.  Returns the expansion map and the replacement
transform map, or the collected expansion errors. -/
def expand_transforms (b : ConfigBuilder) :
    Except (List String) (List (ComponentKey × List ComponentKey) × List (ComponentKey × TCore)) :=
  let st := b.transforms.reverse.foldl expandStep ([], [], [])
  if st.2.2.isEmpty then .ok (st.2.1, st.1) else .error st.2.2

/-- The candidate set of `expand_globs`: the string rendering of every
output of every source, then of every (expanded) transform, collected
into an `IndexSet`. -/
def globCandidates (sources : List (ComponentKey × SourceOuter))
    (transforms : List (ComponentKey × TCore)) : List String :=
  indexSetOfList
    ((sources.flatMap fun ks =>
        ks.2.outputPorts.map fun p => OutputId.render ⟨ks.1, p⟩) ++
     (transforms.flatMap fun kt =>
        kt.2.outputPorts.map fun p => OutputId.render ⟨kt.1, p⟩))

/-- `expand_globs(&mut builder)`: rewrite every transform's and sink's
input list against the candidate set.  Also returns the warning log
events of the `warn!` calls (transforms first, then sinks, following the
source's iteration order). -/
def expand_globs (sources : List (ComponentKey × SourceOuter))
    (transforms : List (ComponentKey × TCore))
    (sinks : List (ComponentKey × SinkOuter)) :
    List (ComponentKey × TCore) × List (ComponentKey × SinkOuter) × List (String × String) :=
  let candidates := globCandidates sources transforms
  let ts := transforms.map fun kt =>
    (kt.1, { kt.2 with inputs := (expand_globs_inner kt.2.inputs kt.1 candidates).1 })
  let sks := sinks.map fun ks =>
    (ks.1, { ks.2 with inputs := (expand_globs_inner ks.2.inputs ks.1 candidates).1 })
  let log := (transforms.flatMap fun kt => (expand_globs_inner kt.2.inputs kt.1 candidates).2) ++
    (sinks.flatMap fun ks => (expand_globs_inner ks.2.inputs ks.1 candidates).2)
  (ts, sks, log)

/-- A source of the final `Config`: its output ports and the effective
acknowledgement flag computed by acknowledgement propagation. -/
structure SourceResolved where
  outputPorts : List (Option String)
  effAck : Bool
deriving DecidableEq, Repr

/-- A transform of the final `Config`, with inputs resolved to `OutputId`s
(read back from the graph). -/
structure TransformResolved where
  inputs : List OutputId
  outputPorts : List (Option String)
deriving DecidableEq, Repr

/-- A sink of the final `Config`, with inputs resolved to `OutputId`s. -/
structure SinkResolved where
  inputs : List OutputId
  acks : Bool
deriving DecidableEq, Repr

/-- The final immutable `Config`. -/
structure Config where
  sources : List (ComponentKey × SourceResolved)
  transforms : List (ComponentKey × TransformResolved)
  sinks : List (ComponentKey × SinkResolved)
  tests : List Unit
  expansions : List (ComponentKey × List ComponentKey)
deriving DecidableEq, Repr

/-- The view of the builder after macro and glob expansion, as passed to
the external shape/resource/output checks. -/
structure PostBuilder where
  sources : List (ComponentKey × SourceOuter)
  transforms : List (ComponentKey × TCore)
  sinks : List (ComponentKey × SinkOuter)
deriving DecidableEq, Repr

/-- The graph produced by `Graph::new` (external, `config/graph.rs`):
the outcomes of its typecheck and cycle check, and the resolved inputs
it reports back for each component (`Graph::inputs_for`). -/
structure GraphModel where
  typecheckResult : Except (List String) Unit
  cycleResult : Except String Unit
  inputs_for : ComponentKey → List OutputId

/-- The external oracles `compile` consults, at the positions the source
calls them: the four structural validation checks, graph construction,
and the `validation::warnings` pass over the final config. -/
structure Oracles where
  check_names : List ComponentKey → Except (List String) Unit
  check_shape : PostBuilder → Except (List String) Unit
  check_resources : PostBuilder → Except (List String) Unit
  check_outputs : PostBuilder → Except (List String) Unit
  graph_new : PostBuilder → List (String × List String) → Except (List String) GraphModel
  warnings : Config → List String

/-- `to_string_expansions`: render the expansion map with string keys and
values (component ids are already strings in this embedding). -/
def to_string_expansions (input : List (ComponentKey × List ComponentKey)) :
    List (String × List String) :=
  input.map fun kv => (kv.1, kv.2)

/-- The error list of a check outcome (`errors.extend(..)` merges it). -/
def errList : Except (List String) Unit → List String
  | .error es => es
  | .ok _ => []

/-- `collect::<Result<Vec<_>, Vec<_>>>()` over the tests: the first
failing test's errors, or the list of resolved tests. -/
def collectResults : List TestOuter → Except (List String) (List Unit)
  | [] => .ok []
  | .error e :: _ => .error e
  | .ok u :: rest => (collectResults rest).map (u :: ·)

/-- The consuming components of a config with their resolved inputs
(transforms then sinks); producers of the edges into each consumer. -/
def consumerEntries (cfg : Config) : List (ComponentKey × List OutputId) :=
  (cfg.transforms.map fun kt => (kt.1, kt.2.inputs)) ++
  (cfg.sinks.map fun ks => (ks.1, ks.2.inputs))

/-- The directed-edge test of the final graph: `p → c` when consumer `c`
lists an output of component `p` among its resolved inputs. -/
def edgeB (cfg : Config) (p c : ComponentKey) : Bool :=
  (consumerEntries cfg).any fun e => e.1 == c && e.2.any fun oid => oid.component == p

/-- All keys that can appear as consumers (the only keys a reachability
step can add). -/
def consumerKeys (cfg : Config) : List ComponentKey :=
  (consumerEntries cfg).map Prod.fst

/-- Core of one reachability step: walk the consumer keys and append each
one that is reachable in one edge from the current set `S` and not yet
present in the accumulator. -/
def stepAux (cfg : Config) (S : List ComponentKey) :
    List ComponentKey → List ComponentKey → List ComponentKey
  | [], acc => acc
  | c :: rest, acc =>
    stepAux cfg S rest
      (if c ∈ acc then acc else if S.any (fun p => edgeB cfg p c) then acc ++ [c] else acc)

/-- One reachability step: add every consumer one edge away from `S`. -/
def stepReach (cfg : Config) (S : List ComponentKey) : List ComponentKey :=
  stepAux cfg S (consumerKeys cfg) S

/-- Modelled from the spec: the set of components reachable from `start`
via directed edges, computed by iterating the step enough times for the
monotone iteration to reach its fixed point. -/
def reachSet (cfg : Config) (start : ComponentKey) : List ComponentKey :=
  (stepReach cfg)^[(consumerKeys cfg).length + 1] [start]

/-- The acknowledgement capabilities of the sinks reachable from `start`. -/
def reachableSinkAcks (cfg : Config) (start : ComponentKey) : List Bool :=
  cfg.sinks.filterMap fun ks =>
    if ks.1 ∈ reachSet cfg start then some ks.2.acks else none

/-- Modelled from the spec: a source's effective acknowledgement
capability is the AND over all reachable sinks' capabilities; a source
with no reachable sinks has no acknowledgement guarantee. -/
def computeEffAck (cfg : Config) (start : ComponentKey) : Bool :=
  let acks := reachableSinkAcks cfg start
  !acks.isEmpty && acks.all id

/-- The config with every source's effective acknowledgement flag
computed from the sinks reachable from it. -/
def propagatedConfig (cfg : Config) : Config :=
  { cfg with
    sources := cfg.sources.map fun ks => (ks.1, { ks.2 with effAck := computeEffAck cfg ks.1 }) }

/-- Modelled from the spec: `Config::propagate_acknowledgements` (defined
in `config/mod.rs`, not part of the embedded source).  Per the spec it
computes each source's effective acknowledgement capability as the AND
over all reachable sinks and "never produces an error". -/
def propagate_acknowledgements (cfg : Config) : Except (List String) Config :=
  .ok (propagatedConfig cfg)

/-- The post-glob builder view `compile` hands to the external checks and
to graph construction, for a given expanded transform map: the builder's
sources, and the transforms and sinks with inputs rewritten by
`expand_globs`. -/
def postBuilderOf (b : ConfigBuilder) (transforms0 : List (ComponentKey × TCore)) : PostBuilder :=
  ⟨b.sources, (expand_globs b.sources transforms0 b.sinks).1,
   (expand_globs b.sources transforms0 b.sinks).2.1⟩

/-- The soft errors accumulated before graph construction, in
accumulation order: name check, then (after glob expansion) shape,
resource and output checks. -/
def preGraphErrors (o : Oracles) (b : ConfigBuilder)
    (transforms0 : List (ComponentKey × TCore)) : List String :=
  errList (o.check_names
    (b.transforms.map Prod.fst ++ b.sources.map Prod.fst ++ b.sinks.map Prod.fst)) ++
  errList (o.check_shape (postBuilderOf b transforms0)) ++
  errList (o.check_resources (postBuilderOf b transforms0)) ++
  errList (o.check_outputs (postBuilderOf b transforms0))

/-- The error contribution of the cycle check (`errors.push(e)` on a
single error string). -/
def cycleErrList : Except String Unit → List String
  | .error e => [e]
  | .ok _ => []

/-- Input materialization: the final `Config` read back from the graph —
every transform's and sink's resolved inputs come from
`Graph::inputs_for`, sources keep their declared outputs (their
effective-acknowledgement flag is filled in by propagation). -/
def materializedConfig (b : ConfigBuilder) (transforms0 : List (ComponentKey × TCore))
    (graph : GraphModel) (tests : List Unit)
    (expansions : List (ComponentKey × List ComponentKey)) : Config :=
  ⟨b.sources.map fun ks => (ks.1, SourceResolved.mk ks.2.outputPorts false),
   (postBuilderOf b transforms0).transforms.map fun kt =>
     (kt.1, TransformResolved.mk (graph.inputs_for kt.1) kt.2.outputPorts),
   (postBuilderOf b transforms0).sinks.map fun ks =>
     (ks.1, SinkResolved.mk (graph.inputs_for ks.1) ks.2.acks),
   tests, expansions⟩

/-- `compile(builder)` from the source, phase by phase:
name check (soft), macro expansion (hard stop via `?`, which drops the
errors accumulated so far), glob expansion, shape/resource/output checks
(soft), graph construction (hard stop, merging accumulated errors),
typecheck and cycle check (soft), input materialization, test resolution
(hard stop via `?`, returning only the first failing test's errors),
then the final empty-error decision, acknowledgement propagation and the
warnings pass. -/
def compile (o : Oracles) (b : ConfigBuilder) : Except (List String) (Config × List String) :=
  match expand_transforms b with
  | .error e => .error e
  | .ok (expansions, transforms0) =>
    match o.graph_new (postBuilderOf b transforms0) (to_string_expansions expansions) with
    | .error graph_errors => .error (preGraphErrors o b transforms0 ++ graph_errors)
    | .ok graph =>
      match collectResults b.tests with
      | .error e => .error e
      | .ok tests =>
        if (preGraphErrors o b transforms0 ++ errList graph.typecheckResult ++
            cycleErrList graph.cycleResult).isEmpty then
          match propagate_acknowledgements
              (materializedConfig b transforms0 graph tests expansions) with
          | .error e => .error e
          | .ok config => .ok (config, o.warnings config)
        else .error (preGraphErrors o b transforms0 ++ errList graph.typecheckResult ++
          cycleErrList graph.cycleResult)

/-- Whether compilation reaches the final empty-error decision: macro
expansion, graph construction and test resolution all succeeded. -/
def reachesFinal (o : Oracles) (b : ConfigBuilder) : Bool :=
  match expand_transforms b with
  | .error _ => false
  | .ok (expansions, transforms0) =>
    match o.graph_new (postBuilderOf b transforms0) (to_string_expansions expansions) with
    | .error _ => false
    | .ok _ =>
      match collectResults b.tests with
      | .error _ => false
      | .ok _ => true

/-- The error list accumulated at the final decision point (name, shape,
resource, output, typecheck and cycle errors, in accumulation order);
`[]` when a hard stop prevents reaching that point. -/
def finalErrors (o : Oracles) (b : ConfigBuilder) : List String :=
  match expand_transforms b with
  | .error _ => []
  | .ok (expansions, transforms0) =>
    match o.graph_new (postBuilderOf b transforms0) (to_string_expansions expansions) with
    | .error _ => []
    | .ok graph =>
      preGraphErrors o b transforms0 ++ errList graph.typecheckResult ++
        cycleErrList graph.cycleResult

/-- The warning log events that the glob-expansion phase of `compile`
emits (and discards into the tracing log): `(component id, pattern)` for
every input that fails to compile as a glob pattern. -/
def compileGlobLog (b : ConfigBuilder) : List (String × String) :=
  match expand_transforms b with
  | .error _ => []
  | .ok (_, transforms0) => (expand_globs b.sources transforms0 b.sinks).2.2

/-- A string free of glob metacharacters: compiled as a pattern it can
only match itself. -/
def noGlobMeta (s : String) : Prop :=
  ∀ c ∈ s.toList, ¬(c = '*' ∨ c = '?' ∨ c = '[')

instance (s : String) : Decidable (noGlobMeta s) := by
  unfold noGlobMeta
  infer_instance

/-- Reachability in the final graph: the reflexive-transitive closure of
the directed-edge relation. -/
def Reaches (cfg : Config) (s k : ComponentKey) : Prop :=
  Relation.ReflTransGen (fun p c => edgeB cfg p c = true) s k

section Fixtures

/-- A transform with no expansion capability: `expand` inserts the
transform itself and records nothing. -/
def passThrough (k : ComponentKey) (c : TCore) : TransformOuter :=
  ⟨c, .ok ([(k, c)], [])⟩

/-- The graph model resolving the inputs of the `S → T → {K1, K2}`
topology, with typecheck and cycle check passing. -/
def gmShared : GraphModel :=
  ⟨.ok (), .ok (), fun k =>
    if k = "T" then [⟨"S", none⟩]
    else if k = "K1" ∨ k = "K2" then [⟨"T", none⟩] else []⟩

/-- Oracles for scenarios where every external check succeeds: the graph
resolves the inputs of the `S → T → {K1, K2}` topology. -/
def oracShared : Oracles where
  check_names := fun _ => .ok ()
  check_shape := fun _ => .ok ()
  check_resources := fun _ => .ok ()
  check_outputs := fun _ => .ok ()
  graph_new := fun _ _ => .ok gmShared
  warnings := fun _ => []

/-- Builder for the acknowledgement scenario: source `S`, transform `T`
reading from `S`, sinks `K1` and `K2` reading from `T`, both supporting
acknowledgements. -/
def bAck : ConfigBuilder where
  sources := [("S", ⟨[none]⟩)]
  transforms := [("T", passThrough "T" ⟨["S"], [none]⟩)]
  sinks := [("K1", ⟨["T"], true⟩), ("K2", ⟨["T"], true⟩)]
  tests := []

/-- The config `compile oracShared bAck` produces. -/
def cfgAck : Config :=
  ⟨[("S", ⟨[none], true⟩)],
   [("T", ⟨[⟨"S", none⟩], [none]⟩)],
   [("K1", ⟨[⟨"T", none⟩], true⟩), ("K2", ⟨[⟨"T", none⟩], true⟩)],
   [], []⟩

/-- Oracles whose name check reports a collision; everything else as in
`oracShared`. -/
def oracNameErr : Oracles :=
  { oracShared with check_names := fun _ => .error ["name error: dotted id"] }

/-- Builder with one transform whose macro expansion fails. -/
def bBadExpansion : ConfigBuilder where
  sources := [("S", ⟨[none]⟩)]
  transforms := [("bad", ⟨⟨[], [none]⟩, .error "expansion failed: bad"⟩)]
  sinks := []
  tests := []

/-- Oracles whose shape check fails; everything else as in `oracShared`. -/
def oracShapeErr : Oracles :=
  { oracShared with check_shape := fun _ => .error ["shape error"] }

/-- Oracles whose graph construction fails and whose name check also
reports an error; used for the graph hard-stop scenario. -/
def oracGraphErr : Oracles :=
  { oracShared with
    check_names := fun _ => .error ["name error: dotted id"],
    graph_new := fun _ _ => .error ["unknown input: ghost"] }

/-- `bAck` with a unit test whose input resolution fails. -/
def bBadTest : ConfigBuilder :=
  { bAck with tests := [.error ["test error: no such input"]] }

/-- Builder with two pass-through transforms and a wildcard sink, showing
the candidate order after macro expansion. -/
def bTwoTransforms : ConfigBuilder where
  sources := [("s1", ⟨[none]⟩)]
  transforms := [("t1", passThrough "t1" ⟨[], [none]⟩), ("t2", passThrough "t2" ⟨[], [none]⟩)]
  sinks := [("snk", ⟨["*"], true⟩)]
  tests := []

/-- Builder whose sink input `[` fails to compile as a glob pattern and
literal-matches the source named `[`. -/
def bBadGlob : ConfigBuilder where
  sources := [("[", ⟨[none]⟩)]
  transforms := []
  sinks := [("snk", ⟨["["], true⟩)]
  tests := []

/-- The graph model resolving `snk`'s literal input `[`. -/
def gmBadGlob : GraphModel :=
  ⟨.ok (), .ok (), fun k => if k = "snk" then [⟨"[", none⟩] else []⟩

/-- Oracles for `bBadGlob`: the graph resolves `snk`'s literal input. -/
def oracBadGlob : Oracles :=
  { oracShared with graph_new := fun _ _ => .ok gmBadGlob }

/-- The config `compile oracBadGlob bBadGlob` produces. -/
def cfgBadGlob : Config :=
  ⟨[("[", ⟨[none], true⟩)], [], [("snk", ⟨[⟨"[", none⟩], true⟩)], [], []⟩

end Fixtures

/-! ### Lemmas about `inputsExtend` and `processRawInput` -/

theorem mem_inputsExtend_of_mem {acc : List String} {x : String} (y : String)
    (h : x ∈ acc) : x ∈ inputsExtend acc y := by
  unfold inputsExtend
  split <;> simp [h]

theorem mem_inputsExtend_self (acc : List String) (x : String) : x ∈ inputsExtend acc x := by
  unfold inputsExtend
  split <;> simp [*]

theorem mem_foldl_inputsExtend_of_mem {acc : List String} {x : String} (l : List String)
    (h : x ∈ acc) : x ∈ l.foldl inputsExtend acc := by
  induction l generalizing acc with
  | nil => exact h
  | cons y l ih => exact ih (mem_inputsExtend_of_mem y h)

theorem mem_of_mem_foldl_inputsExtend {l acc : List String} {x : String}
    (h : x ∈ l.foldl inputsExtend acc) : x ∈ acc ∨ x ∈ l := by
  induction l generalizing acc with
  | nil => exact Or.inl h
  | cons y l ih =>
    rcases ih h with h' | h'
    · unfold inputsExtend at h'
      split at h'
      · exact Or.inl h'
      · rcases List.mem_append.mp h' with h'' | h''
        · exact Or.inl h''
        · simp at h''
          simp [h'']
    · simp [h']

theorem foldl_inputsExtend_of_nodup {l : List String} (acc : List String)
    (hnd : l.Nodup) (hdisj : ∀ x ∈ l, x ∉ acc) : l.foldl inputsExtend acc = acc ++ l := by
  induction l generalizing acc with
  | nil => simp
  | cons y l ih =>
    have hy : y ∉ acc := hdisj y (by simp)
    have hstep : inputsExtend acc y = acc ++ [y] := by
      unfold inputsExtend
      rw [if_neg hy]
    rw [List.foldl_cons, hstep, ih (acc ++ [y]) hnd.of_cons]
    · simp
    · intro x hx
      simp only [List.mem_append, List.mem_singleton]
      rintro (h | rfl)
      · exact hdisj x (by simp [hx]) h
      · exact (List.nodup_cons.mp hnd).1 hx

theorem mem_processRawInput_of_mem {acc : List String} {x : String} (id : String)
    (candidates : List String) (raw : String) (h : x ∈ acc) :
    x ∈ processRawInput id candidates acc raw := by
  unfold processRawInput
  split
  · exact mem_inputsExtend_of_mem _ (mem_foldl_inputsExtend_of_mem _ h)
  · exact mem_foldl_inputsExtend_of_mem _ h

theorem mem_of_mem_processRawInput {id : String} {candidates acc : List String}
    {raw x : String} (h : x ∈ processRawInput id candidates acc raw) :
    x ∈ acc ∨ x = raw ∨ x ∈ matchedCandidates raw id candidates := by
  unfold processRawInput at h
  split at h
  · unfold inputsExtend at h
    split at h
    · rcases mem_of_mem_foldl_inputsExtend h with h' | h'
      · exact Or.inl h'
      · exact Or.inr (Or.inr h')
    · rcases List.mem_append.mp h with h' | h'
      · rcases mem_of_mem_foldl_inputsExtend h' with h'' | h''
        · exact Or.inl h''
        · exact Or.inr (Or.inr h'')
      · simp at h'
        exact Or.inr (Or.inl h')
  · rcases mem_of_mem_foldl_inputsExtend h with h' | h'
    · exact Or.inl h'
    · exact Or.inr (Or.inr h')

theorem mem_foldl_processRawInput_of_mem {acc : List String} {x : String} (id : String)
    (candidates : List String) (l : List String) (h : x ∈ acc) :
    x ∈ l.foldl (processRawInput id candidates) acc := by
  induction l generalizing acc with
  | nil => exact h
  | cons raw l ih => exact ih (mem_processRawInput_of_mem id candidates raw h)

theorem mem_of_mem_foldl_processRawInput {id : String} {candidates l acc : List String}
    {x : String} (h : x ∈ l.foldl (processRawInput id candidates) acc) :
    x ∈ acc ∨ x ∈ l ∨ (x ∈ candidates ∧ x ≠ id) := by
  induction l generalizing acc with
  | nil => exact Or.inl h
  | cons raw l ih =>
    rcases ih h with h' | h' | h'
    · rcases mem_of_mem_processRawInput h' with h'' | h'' | h''
      · exact Or.inl h''
      · simp [h'']
      · unfold matchedCandidates at h''
        have := List.of_mem_filter h''
        simp at this
        exact Or.inr (Or.inr ⟨List.mem_of_mem_filter h'', this.2⟩)
    · simp [h']
    · exact Or.inr (Or.inr h')

theorem passthrough_mem {inputs : List String} {raw : String} (id : String)
    (candidates : List String) (hraw : raw ∈ inputs)
    (hnone : matchedCandidates raw id candidates = []) :
    raw ∈ (expand_globs_inner inputs id candidates).1 := by
  unfold expand_globs_inner
  rcases List.append_of_mem hraw with ⟨l1, l2, rfl⟩
  rw [List.foldl_append, List.foldl_cons]
  apply mem_foldl_processRawInput_of_mem
  unfold processRawInput
  rw [hnone]
  simp only [List.isEmpty_nil, List.foldl_nil, if_pos]
  exact mem_inputsExtend_self _ raw

/-! ### Literal patterns: a metacharacter-free string matches only itself -/

theorem globParse_noMeta : ∀ l : List Char, (∀ c ∈ l, ¬(c = '*' ∨ c = '?' ∨ c = '[')) →
    globParseAux .normal l = some (l.map GlobTok.lit) := by
  intro l h
  induction l with
  | nil => rfl
  | cons c rest ih =>
    have hc := h c (by simp)
    push_neg at hc
    simp only [globParseAux, if_neg hc.1, if_neg hc.2.1, if_neg hc.2.2]
    rw [ih (fun d hd => h d (by simp [hd]))]
    rfl

theorem globMatchF_lits : ∀ (f : Nat) (cs ds : List Char), cs.length + ds.length < f →
    (globMatchF f (cs.map GlobTok.lit) ds = true ↔ cs = ds) := by
  intro f
  induction f with
  | zero => intro cs ds h; omega
  | succ f ih =>
    intro cs ds h
    match cs, ds with
    | [], ds =>
      simp only [List.map_nil, globMatchF]
      cases ds <;> simp
    | c :: cs, [] =>
      simp [globMatchF]
    | c :: cs, d :: ds =>
      simp only [List.map_cons, globMatchF, Bool.and_eq_true, beq_iff_eq]
      rw [ih cs ds (by simp at h; omega)]
      simp

theorem mkMatcher_noMeta (id : String) (hmeta : noGlobMeta id) :
    ∀ c : String, ((mkMatcher id).matches c = true ↔ c = id) := by
  intro c
  unfold mkMatcher globParse
  rw [globParse_noMeta id.toList hmeta]
  unfold InputMatcher.matches globMatch
  rw [globMatchF_lits _ id.toList c.toList (by simp)]
  constructor
  · intro h
    cases id
    cases c
    exact congrArg String.mk h.symm
  · intro h
    rw [h]

theorem matchedCandidates_self_empty (id : String) (hmeta : noGlobMeta id)
    (candidates : List String) : matchedCandidates id id candidates = [] := by
  unfold matchedCandidates
  apply List.filter_eq_nil_iff.mpr
  intro c _
  simp only [Bool.and_eq_true, bne_iff_ne, ne_eq, not_and]
  intro hm
  exact fun hne => hne ((mkMatcher_noMeta id hmeta c).mp hm)

/-! ### Macro-expansion pass-through lemma -/

theorem foldl_expandStep_passthrough :
    ∀ (l : List (ComponentKey × TransformOuter))
      (acc1 : List (ComponentKey × TCore)) (acc2 : List (ComponentKey × List ComponentKey)),
      (∀ kt ∈ l, kt.2.expandOutcome = .ok ([(kt.1, kt.2.core)], [])) →
      l.foldl expandStep (acc1, acc2, []) =
        (acc1 ++ l.map (fun kt => (kt.1, kt.2.core)), acc2, []) := by
  intro l
  induction l with
  | nil => intro acc1 acc2 _; simp
  | cons kt l ih =>
    intro acc1 acc2 hpass
    have hstep : expandStep (acc1, acc2, []) kt = (acc1 ++ [(kt.1, kt.2.core)], acc2, []) := by
      unfold expandStep
      rw [hpass kt (by simp)]
      simp
    rw [List.foldl_cons, hstep, ih _ _ (fun x hx => hpass x (by simp [hx]))]
    simp

/-! ### Claim theorems -/

/-- C7 (confirmed): a raw input string that matches no candidate during
glob expansion (no candidate passes the matcher-and-not-self test, i.e.
the `matched` flag stays false) is left in the input list rather than
dropped; glob expansion itself is a total function and cannot fail. -/
theorem c7_passthrough_on_no_match (inputs : List String) (id raw : String)
    (candidates : List String) (hraw : raw ∈ inputs)
    (hnone : matchedCandidates raw id candidates = []) :
    raw ∈ (expand_globs_inner inputs id candidates).1 :=
  passthrough_mem id candidates hraw hnone

/-- Witness for C7: the unmatched literal `ghost` survives glob expansion
of a sink whose only candidate is `foo`. -/
theorem c7_witness : "ghost" ∈ (expand_globs_inner ["ghost"] "snk" ["foo"]).1 :=
  c7_passthrough_on_no_match ["ghost"] "snk" "ghost" ["foo"] (by decide) (by decide)

/-- C6 (corrected): matching indeed excludes the candidate equal to the
consuming component's own id, but the glob-expanded input list can still
contain the consumer's own id — via the no-match pass-through of a raw
input.  Amended statement: the expanded list contains the consumer's own
id only if the raw input list already contained it verbatim. -/
theorem c6_self_exclusion (inputs : List String) (id : String)
    (candidates : List String) (h : id ∈ (expand_globs_inner inputs id candidates).1) :
    id ∈ inputs := by
  unfold expand_globs_inner at h
  simp only at h
  rcases mem_of_mem_foldl_processRawInput h with h' | h' | h'
  · exact absurd h' (List.not_mem_nil id)
  · exact h'
  · exact absurd rfl h'.2

/-- Counterexample for C6 as stated: transform `x` has the wildcard `*`
among its inputs, yet its glob-expanded input list `["y", "x"]` contains
`x` itself (the literal self-reference `x` matched nothing — the self
candidate is excluded — and passed through). -/
theorem c6_counterexample :
    (expand_globs [("y", SourceOuter.mk [none])] [("x", TCore.mk ["*", "x"] [none])] []).1
      = [("x", TCore.mk ["y", "x"] [none])] ∧
    "*" ∈ (TCore.mk ["*", "x"] [none]).inputs ∧
    "x" ∈ (TCore.mk ["y", "x"] [none]).inputs := by
  decide

/-- Witness for C6 (amended): applying the theorem at the counterexample
input recovers that `x` was a raw input to begin with. -/
theorem c6_witness : "x" ∈ (["*", "x"] : List String) :=
  c6_self_exclusion ["*", "x"] "x" ["x", "y"] (by decide)

/-- C10 (corrected): a literal self-reference survives glob expansion
provided the transform's id is free of glob metacharacters (then its
pattern matches only the consumer itself, which self-exclusion skips, so
the no-match fallback re-inserts the original string).  For an id
containing a metacharacter the pattern can match other candidates and
the self-reference is replaced instead — see the counterexample. -/
theorem c10_self_reference_preserved (inputs : List String) (id : String)
    (candidates : List String) (hmeta : noGlobMeta id) (hmem : id ∈ inputs) :
    id ∈ (expand_globs_inner inputs id candidates).1 :=
  passthrough_mem id candidates hmem (matchedCandidates_self_empty id hmeta candidates)

/-- Counterexample for C10 as stated: the transform named `a*` lists the
string `a*` (its own id) among its raw inputs; as a glob pattern the id
matches the source `ab`, so the entry is replaced by `ab` and the
self-reference does not survive. -/
theorem c10_counterexample :
    (expand_globs [("ab", SourceOuter.mk [none])] [("a*", TCore.mk ["a*"] [none])] []).1
      = [("a*", TCore.mk ["ab"] [none])] ∧
    "a*" ∉ (TCore.mk ["ab"] [none]).inputs := by
  decide

/-- Witness for C10 (amended): the metacharacter-free self-reference `x`
survives expansion against candidates `x` and `y`. -/
theorem c10_witness : "x" ∈ (expand_globs_inner ["x"] "x" ["x", "y"]).1 :=
  c10_self_reference_preserved ["x"] "x" ["x", "y"] (by decide) (by decide)

/-- C8 (corrected): an input string that fails to compile as a glob
pattern falls back to exact-string literal matching, and the `warn!` call
emits a log event naming the component and the pattern.  Amended
statement: the warning is a tracing log event emitted during glob
expansion; it is not part of the warning list returned alongside the
`Config` (that list is produced by `validation::warnings` over the final
config, after the pattern string is gone) — see the counterexample. -/
theorem c8_glob_fallback_warning (inputs : List String) (id raw : String)
    (candidates : List String) (hraw : raw ∈ inputs)
    (hfail : globParse raw.toList = none) :
    mkMatcher raw = .str raw ∧ (id, raw) ∈ (expand_globs_inner inputs id candidates).2 := by
  constructor
  · unfold mkMatcher
    rw [hfail]
  · unfold expand_globs_inner
    simp only
    exact List.mem_filterMap.mpr ⟨raw, hraw, by rw [hfail]; rfl⟩

/-- Counterexample for C8 as stated: the sink input `[` fails to compile
as a glob (the warning log records it), compilation succeeds — and the
warning list returned with the `Config` is empty: the logged warning does
not appear in it. -/
theorem c8_counterexample :
    compile oracBadGlob bBadGlob = .ok (cfgBadGlob, []) ∧
    compileGlobLog bBadGlob = [("snk", "[")] := by
  constructor
  · decide
  · decide

/-- Witness for C8 (amended): the invalid pattern `[` yields the literal
fallback matcher and the warning log event naming sink and pattern. -/
theorem c8_witness :
    mkMatcher "[" = .str "[" ∧ ("snk", "[") ∈ (expand_globs_inner ["["] "snk" ["["]).2 :=
  c8_glob_fallback_warning ["["] "snk" "[" ["["] (by decide) (by decide)

/-- C5 (corrected): (1) a single raw input with at least one match is
replaced by exactly the matched candidates in candidate-set iteration
order; (2) the candidate set is the `IndexSet` collected from every
source's outputs first, then every expanded transform's outputs, each
component in turn over its declared ports; but (3) the expanded transform
map that feeds (2) is in *reverse* declaration order, because
`expand_macros` pops transforms from the back of the map — so the overall
candidate order is sources in declaration order followed by transforms in
reverse declaration order, not declaration order throughout. -/
theorem c5_glob_match_order :
    (∀ (raw id : String) (candidates : List String), candidates.Nodup →
       matchedCandidates raw id candidates ≠ [] →
       (expand_globs_inner [raw] id candidates).1 = matchedCandidates raw id candidates) ∧
    (∀ (sources : List (ComponentKey × SourceOuter)) (transforms : List (ComponentKey × TCore)),
       globCandidates sources transforms = indexSetOfList
         ((sources.flatMap fun ks => ks.2.outputPorts.map fun p => OutputId.render ⟨ks.1, p⟩) ++
          (transforms.flatMap fun kt => kt.2.outputPorts.map fun p => OutputId.render ⟨kt.1, p⟩))) ∧
    (∀ b : ConfigBuilder,
       (∀ kt ∈ b.transforms, kt.2.expandOutcome = .ok ([(kt.1, kt.2.core)], [])) →
       expand_transforms b = .ok ([], b.transforms.reverse.map fun kt => (kt.1, kt.2.core))) := by
  refine ⟨?_, fun _ _ => rfl, ?_⟩
  · intro raw id candidates hnd hne
    unfold expand_globs_inner
    simp only [List.foldl_cons, List.foldl_nil]
    unfold processRawInput
    rw [if_neg (by simpa using hne)]
    rw [foldl_inputsExtend_of_nodup []
      (by unfold matchedCandidates; exact hnd.filter _) (by simp)]
    rfl
  · intro b hpass
    unfold expand_transforms
    rw [foldl_expandStep_passthrough b.transforms.reverse [] []
      (fun kt hkt => hpass kt (List.mem_reverse.mp hkt))]
    simp

/-- Counterexample for C5 as stated: transforms are declared in order
`t1, t2`, but after macro expansion the candidate set lists `t2` before
`t1`, so the wildcard sink resolves to `[s1, t2, t1]`, not the
declaration order `[s1, t1, t2]` the claim prescribes. -/
theorem c5_counterexample :
    expand_transforms bTwoTransforms
      = .ok ([], [("t2", TCore.mk [] [none]), ("t1", TCore.mk [] [none])]) ∧
    (expand_globs bTwoTransforms.sources
        [("t2", TCore.mk [] [none]), ("t1", TCore.mk [] [none])] bTwoTransforms.sinks).2.1
      = [("snk", SinkOuter.mk ["s1", "t2", "t1"] true)] ∧
    (["s1", "t2", "t1"] : List String) ≠ ["s1", "t1", "t2"] := by
  refine ⟨by decide, by decide, by decide⟩

/-- Witness for C5 (amended): the wildcard of sink `quux` (the spec's
concrete scenario) resolves to exactly the matched candidates in
candidate-set order. -/
theorem c5_witness :
    (expand_globs_inner ["*"] "quux" ["foo1", "foo2", "bar", "foos"]).1
      = matchedCandidates "*" "quux" ["foo1", "foo2", "bar", "foos"] :=
  c5_glob_match_order.1 "*" "quux" ["foo1", "foo2", "bar", "foos"] (by decide) (by decide)

/-- C1 (confirmed): compile returns a `Config` (with warnings) exactly
when it reaches the final decision point with an empty accumulated error
list (name/shape/resource/output checks, typecheck, cycle check); with
any error present there it returns that error list and no `Config`.
(Acknowledgement propagation, modelled from the spec, never errors, so
the success branch always completes.) -/
theorem c1_compile_final_decision (o : Oracles) (b : ConfigBuilder) :
    ((∃ p, compile o b = .ok p) ↔ (reachesFinal o b = true ∧ finalErrors o b = [])) ∧
    (reachesFinal o b = true → finalErrors o b ≠ [] →
      compile o b = .error (finalErrors o b)) := by
  unfold compile reachesFinal finalErrors
  cases hm : expand_transforms b with
  | error es => simp [hm]
  | ok pr =>
    obtain ⟨exp, tr0⟩ := pr
    simp only [hm]
    cases hg : o.graph_new (postBuilderOf b tr0) (to_string_expansions exp) with
    | error ge => simp [hg]
    | ok g =>
      simp only [hg]
      cases hc : collectResults b.tests with
      | error te => simp [hc]
      | ok tests =>
        simp only [hc]
        by_cases he : (preGraphErrors o b tr0 ++ errList g.typecheckResult ++
            cycleErrList g.cycleResult) = []
        · simp [he, propagate_acknowledgements]
        · simp only [List.isEmpty_eq_true, he, if_false, ne_eq, not_false_iff]
          simp [he]

/-- Witness for C1: the all-checks-pass scenario produces a `Config`, and
the failing-shape-check scenario returns exactly the accumulated error
list. -/
theorem c1_witness :
    (∃ p, compile oracShared bAck = .ok p) ∧
    compile oracShapeErr bAck = .error (finalErrors oracShapeErr bAck) :=
  ⟨(c1_compile_final_decision oracShared bAck).1.mpr ⟨by decide, by decide⟩,
   (c1_compile_final_decision oracShapeErr bAck).2 (by decide) (by decide)⟩

/-- C2 (corrected): a macro-expansion failure is indeed a hard stop right
after the expansion phase — the result does not depend on any later
oracle, for *any* oracle record — but the returned error list consists of
the expansion errors *only*: the `?` on `expand_macros(&mut builder)`
discards the errors gathered so far (e.g. name-check errors) instead of
merging them. -/
theorem c2_macro_failure_hard_stop (o : Oracles) (b : ConfigBuilder) (es : List String)
    (hm : expand_transforms b = .error es) : compile o b = .error es := by
  simp only [compile, hm]

/-- Counterexample for C2 as stated: the name check reports an error and
a macro expansion fails, yet compile returns only the expansion error —
not the name error followed by the expansion error as claimed. -/
theorem c2_counterexample :
    oracNameErr.check_names (bBadExpansion.transforms.map Prod.fst ++
        bBadExpansion.sources.map Prod.fst ++ bBadExpansion.sinks.map Prod.fst)
      = .error ["name error: dotted id"] ∧
    compile oracNameErr bBadExpansion = .error ["expansion failed: bad"] ∧
    (["expansion failed: bad"] : List String)
      ≠ ["name error: dotted id", "expansion failed: bad"] :=
  ⟨rfl, by decide, by decide⟩

/-- Witness for C2 (amended): applying the hard-stop theorem at the
failing-expansion builder. -/
theorem c2_witness : compile oracNameErr bBadExpansion = .error ["expansion failed: bad"] :=
  c2_macro_failure_hard_stop oracNameErr bBadExpansion ["expansion failed: bad"] (by decide)

/-- C3 (confirmed): when graph construction fails, compile hard-stops and
returns all accumulated soft errors (name, shape, resource, output)
followed by the graph-construction errors; no typecheck or cycle-check
contribution can appear — no graph exists to run them on, and the
returned list is fully determined before they could run. -/
theorem c3_graph_failure_merges (o : Oracles) (b : ConfigBuilder)
    (exp : List (ComponentKey × List ComponentKey)) (tr0 : List (ComponentKey × TCore))
    (ge : List String) (hm : expand_transforms b = .ok (exp, tr0))
    (hg : o.graph_new (postBuilderOf b tr0) (to_string_expansions exp) = .error ge) :
    compile o b = .error (preGraphErrors o b tr0 ++ ge) := by
  simp only [compile, hm, hg]

/-- Witness for C3: with a failing name check and failing graph
construction, compile returns the merged list. -/
theorem c3_witness :
    compile oracGraphErr bAck
      = .error (preGraphErrors oracGraphErr bAck [("T", TCore.mk ["S"] [none])]
          ++ ["unknown input: ghost"]) :=
  c3_graph_failure_merges oracGraphErr bAck [] [("T", TCore.mk ["S"] [none])]
    ["unknown input: ghost"] (by decide) rfl

/-- C4 (confirmed): a unit-test input-resolution failure makes compile
return exactly the failing test's errors — immediately, and without
merging any previously accumulated soft error (the statement holds for
every oracle record, in particular ones whose checks failed). -/
theorem c4_test_failure_returns_only_test_errors (o : Oracles) (b : ConfigBuilder)
    (exp : List (ComponentKey × List ComponentKey)) (tr0 : List (ComponentKey × TCore))
    (g : GraphModel) (te : List String) (hm : expand_transforms b = .ok (exp, tr0))
    (hg : o.graph_new (postBuilderOf b tr0) (to_string_expansions exp) = .ok g)
    (ht : collectResults b.tests = .error te) : compile o b = .error te := by
  simp only [compile, hm, hg, ht]

/-- Witness for C4: with a failing shape check and a failing test,
compile returns only the test error. -/
theorem c4_witness : compile oracShapeErr bBadTest = .error ["test error: no such input"] :=
  c4_test_failure_returns_only_test_errors oracShapeErr bBadTest [] [("T", TCore.mk ["S"] [none])]
    gmShared ["test error: no such input"] (by decide) rfl (by decide)

/-! ### Reachability: the iterated step computes the reflexive-transitive
closure of the edge relation -/

theorem stepAux_append (cfg : Config) (S : List ComponentKey) :
    ∀ (u acc : List ComponentKey), ∃ t, stepAux cfg S u acc = acc ++ t := by
  intro u
  induction u with
  | nil => intro acc; exact ⟨[], by simp [stepAux]⟩
  | cons c rest ih =>
    intro acc
    unfold stepAux
    split
    · exact ih acc
    · split
      · obtain ⟨t, ht⟩ := ih (acc ++ [c])
        exact ⟨[c] ++ t, by rw [ht]; simp⟩
      · exact ih acc

theorem mem_stepAux_of_mem (cfg : Config) (S : List ComponentKey)
    (u acc : List ComponentKey) (x : ComponentKey) (h : x ∈ acc) :
    x ∈ stepAux cfg S u acc := by
  obtain ⟨t, ht⟩ := stepAux_append cfg S u acc
  rw [ht]
  exact List.mem_append_left t h

theorem mem_of_mem_stepAux (cfg : Config) (S : List ComponentKey) :
    ∀ (u acc : List ComponentKey) (x : ComponentKey), x ∈ stepAux cfg S u acc →
      x ∈ acc ∨ (x ∈ u ∧ S.any (fun p => edgeB cfg p x) = true) := by
  intro u
  induction u with
  | nil => intro acc x h; exact Or.inl h
  | cons c rest ih =>
    intro acc x h
    unfold stepAux at h
    split at h
    · rcases ih _ x h with h' | h'
      · exact Or.inl h'
      · exact Or.inr ⟨by simp [h'.1], h'.2⟩
    · split at h
      · rcases ih _ x h with h' | h'
        · rcases List.mem_append.mp h' with h'' | h''
          · exact Or.inl h''
          · simp only [List.mem_singleton] at h''
            subst h''
            exact Or.inr ⟨by simp, by assumption⟩
        · exact Or.inr ⟨by simp [h'.1], h'.2⟩
      · rcases ih _ x h with h' | h'
        · exact Or.inl h'
        · exact Or.inr ⟨by simp [h'.1], h'.2⟩

theorem mem_stepAux_of_edge (cfg : Config) (S : List ComponentKey) :
    ∀ (u acc : List ComponentKey) (c : ComponentKey), c ∈ u →
      S.any (fun p => edgeB cfg p c) = true → c ∈ stepAux cfg S u acc := by
  intro u
  induction u with
  | nil => intro acc c h; simp at h
  | cons d rest ih =>
    intro acc c hmem hany
    rcases List.mem_cons.mp hmem with rfl | h'
    · unfold stepAux
      by_cases hc : c ∈ acc
      · rw [if_pos hc]
        exact mem_stepAux_of_mem cfg S rest _ c hc
      · rw [if_neg hc, if_pos hany]
        exact mem_stepAux_of_mem cfg S rest _ c (by simp)
    · unfold stepAux
      split
      · exact ih _ c h' hany
      · split
        · exact ih _ c h' hany
        · exact ih _ c h' hany

theorem stepAux_nodup (cfg : Config) (S : List ComponentKey) :
    ∀ (u acc : List ComponentKey), acc.Nodup → (stepAux cfg S u acc).Nodup := by
  intro u
  induction u with
  | nil => intro acc h; exact h
  | cons c rest ih =>
    intro acc h
    unfold stepAux
    split
    · exact ih _ h
    · split
      · exact ih _ (by simp [List.nodup_append, h]; assumption)
      · exact ih _ h

theorem mem_of_mem_stepReach (cfg : Config) (S : List ComponentKey) (x : ComponentKey)
    (h : x ∈ stepReach cfg S) :
    x ∈ S ∨ (x ∈ consumerKeys cfg ∧ S.any (fun p => edgeB cfg p x) = true) :=
  mem_of_mem_stepAux cfg S (consumerKeys cfg) S x h

theorem stepReach_growth (cfg : Config) (S : List ComponentKey) :
    stepReach cfg S = S ∨ S.length < (stepReach cfg S).length := by
  obtain ⟨t, ht⟩ := stepAux_append cfg S (consumerKeys cfg) S
  unfold stepReach
  rw [ht]
  cases t with
  | nil => simp
  | cons y t => right; simp

theorem mem_stepReach_of_mem (cfg : Config) (S : List ComponentKey) (x : ComponentKey)
    (h : x ∈ S) : x ∈ stepReach cfg S :=
  mem_stepAux_of_mem cfg S (consumerKeys cfg) S x h

theorem start_mem_iterate (cfg : Config) (start : ComponentKey) :
    ∀ n, start ∈ (stepReach cfg)^[n] [start] := by
  intro n
  induction n with
  | zero => simp
  | succ n ih =>
    rw [Function.iterate_succ_apply']
    exact mem_stepReach_of_mem cfg _ start ih

theorem nodup_iterate (cfg : Config) (start : ComponentKey) :
    ∀ n, ((stepReach cfg)^[n] [start]).Nodup := by
  intro n
  induction n with
  | zero => simp
  | succ n ih =>
    rw [Function.iterate_succ_apply']
    exact stepAux_nodup cfg _ (consumerKeys cfg) _ ih

theorem iterate_sub_univ (cfg : Config) (start : ComponentKey) :
    ∀ n, ∀ x ∈ (stepReach cfg)^[n] [start], x ∈ start :: consumerKeys cfg := by
  intro n
  induction n with
  | zero => intro x hx; simp at hx; simp [hx]
  | succ n ih =>
    intro x hx
    rw [Function.iterate_succ_apply'] at hx
    rcases mem_of_mem_stepReach cfg _ x hx with h' | h'
    · exact ih x h'
    · simp [h'.1]

theorem iterate_length_le (cfg : Config) (start : ComponentKey) (n : Nat) :
    ((stepReach cfg)^[n] [start]).length ≤ (consumerKeys cfg).length + 1 := by
  have h := List.Subperm.length_le
    ((nodup_iterate cfg start n).subperm (iterate_sub_univ cfg start n))
  simpa using h

theorem growth_without_stab (cfg : Config) (start : ComponentKey) :
    ∀ m, (∀ k < m, stepReach cfg ((stepReach cfg)^[k] [start]) ≠ (stepReach cfg)^[k] [start]) →
      m + 1 ≤ ((stepReach cfg)^[m] [start]).length := by
  intro m
  induction m with
  | zero => intro _; simp
  | succ m ih =>
    intro h
    have hlt := ih (fun k hk => h k (by omega))
    have hne := h m (by omega)
    rcases stepReach_growth cfg ((stepReach cfg)^[m] [start]) with he | hgt
    · exact absurd he hne
    · rw [Function.iterate_succ_apply']
      omega

theorem exists_stable_iterate (cfg : Config) (start : ComponentKey) :
    ∃ k ≤ (consumerKeys cfg).length + 1,
      stepReach cfg ((stepReach cfg)^[k] [start]) = (stepReach cfg)^[k] [start] := by
  by_contra hno
  push_neg at hno
  have hgrow := growth_without_stab cfg start ((consumerKeys cfg).length + 2)
    (fun k hk => hno k (by omega))
  have hle := iterate_length_le cfg start ((consumerKeys cfg).length + 2)
  omega

theorem iterate_stable_forward (cfg : Config) (start : ComponentKey) (k : Nat)
    (hst : stepReach cfg ((stepReach cfg)^[k] [start]) = (stepReach cfg)^[k] [start]) :
    ∀ d, (stepReach cfg)^[k + d] [start] = (stepReach cfg)^[k] [start] := by
  intro d
  induction d with
  | zero => rfl
  | succ d ih =>
    have : k + (d + 1) = (k + d) + 1 := by omega
    rw [this, Function.iterate_succ_apply', ih, hst]

theorem stepReach_reachSet (cfg : Config) (start : ComponentKey) :
    stepReach cfg (reachSet cfg start) = reachSet cfg start := by
  obtain ⟨k, hk, hst⟩ := exists_stable_iterate cfg start
  have h1 : reachSet cfg start = (stepReach cfg)^[k] [start] := by
    unfold reachSet
    have : (consumerKeys cfg).length + 1 = k + ((consumerKeys cfg).length + 1 - k) := by omega
    rw [this, iterate_stable_forward cfg start k hst]
  rw [h1, hst]

theorem edge_target_mem_consumerKeys (cfg : Config) (p c : ComponentKey)
    (h : edgeB cfg p c = true) : c ∈ consumerKeys cfg := by
  unfold edgeB at h
  rcases List.any_eq_true.mp h with ⟨e, he, hcond⟩
  simp only [Bool.and_eq_true, beq_iff_eq] at hcond
  exact hcond.1 ▸ List.mem_map.mpr ⟨e, he, rfl⟩

theorem iterate_sound (cfg : Config) (start : ComponentKey) :
    ∀ n, ∀ x ∈ (stepReach cfg)^[n] [start], Reaches cfg start x := by
  intro n
  induction n with
  | zero =>
    intro x hx
    simp at hx
    exact hx ▸ Relation.ReflTransGen.refl
  | succ n ih =>
    intro x hx
    rw [Function.iterate_succ_apply'] at hx
    rcases mem_of_mem_stepReach cfg _ x hx with h' | h'
    · exact ih x h'
    · rcases List.any_eq_true.mp h'.2 with ⟨p, hp, hedge⟩
      exact Relation.ReflTransGen.tail (ih p hp) hedge

theorem mem_reachSet_iff (cfg : Config) (start x : ComponentKey) :
    x ∈ reachSet cfg start ↔ Reaches cfg start x := by
  constructor
  · exact iterate_sound cfg start _ x
  · intro h
    induction h with
    | refl => exact start_mem_iterate cfg start _
    | tail hr hedge ih =>
      rw [← stepReach_reachSet cfg start]
      exact mem_stepAux_of_edge cfg (reachSet cfg start) (consumerKeys cfg)
        (reachSet cfg start) _ (edge_target_mem_consumerKeys cfg _ _ hedge)
        (List.any_eq_true.mpr ⟨_, ih, hedge⟩)

theorem computeEffAck_spec (cfg : Config) (k : ComponentKey) :
    computeEffAck cfg k = true ↔
      ((∃ e ∈ cfg.sinks, Reaches cfg k e.1) ∧
       (∀ e ∈ cfg.sinks, Reaches cfg k e.1 → e.2.acks = true)) := by
  unfold computeEffAck reachableSinkAcks
  rw [Bool.and_eq_true, Bool.not_eq_true']
  constructor
  · rintro ⟨h1, h2⟩
    constructor
    · by_contra hno
      push_neg at hno
      have hempty : (cfg.sinks.filterMap fun ks =>
          if ks.1 ∈ reachSet cfg k then some ks.2.acks else none) = [] := by
        apply List.filterMap_eq_nil_iff.mpr
        intro a ha
        rw [if_neg]
        intro hmem
        exact hno a ha ((mem_reachSet_iff cfg k a.1).mp hmem)
      rw [hempty] at h1
      simp at h1
    · intro e he hr
      have hb : e.2.acks ∈ (cfg.sinks.filterMap fun ks =>
          if ks.1 ∈ reachSet cfg k then some ks.2.acks else none) :=
        List.mem_filterMap.mpr ⟨e, he, by rw [if_pos ((mem_reachSet_iff cfg k e.1).mpr hr)]⟩
      simpa using List.all_eq_true.mp h2 _ hb
  · rintro ⟨⟨e, he, hr⟩, hall⟩
    have hb : e.2.acks ∈ (cfg.sinks.filterMap fun ks =>
        if ks.1 ∈ reachSet cfg k then some ks.2.acks else none) :=
      List.mem_filterMap.mpr ⟨e, he, by rw [if_pos ((mem_reachSet_iff cfg k e.1).mpr hr)]⟩
    constructor
    · cases hemp : (cfg.sinks.filterMap fun ks =>
          if ks.1 ∈ reachSet cfg k then some ks.2.acks else none).isEmpty with
      | false => rfl
      | true =>
        rw [List.isEmpty_eq_true] at hemp
        rw [hemp] at hb
        simp at hb
    · apply List.all_eq_true.mpr
      intro b hbmem
      rcases List.mem_filterMap.mp hbmem with ⟨a, ha, hfa⟩
      by_cases hm : a.1 ∈ reachSet cfg k
      · rw [if_pos hm] at hfa
        cases hfa
        simpa using hall a ha ((mem_reachSet_iff cfg k a.1).mp hm)
      · rw [if_neg hm] at hfa
        cases hfa

/-- C9 (confirmed, spec-modelled): acknowledgement propagation never
produces an error, and in every successfully compiled config each
source's effective acknowledgement flag is true exactly when it has at
least one reachable sink and every sink reachable from it (through any
number of transforms, via the resolved input edges) supports
acknowledgements — the AND over all reachable sinks, with a source
without reachable sinks getting no guarantee. -/
theorem c9_ack_propagation :
    (∀ cfg, propagate_acknowledgements cfg = .ok (propagatedConfig cfg)) ∧
    (∀ (o : Oracles) (b : ConfigBuilder) (cfg : Config) (w : List String),
      compile o b = .ok (cfg, w) → ∀ k sr, (k, sr) ∈ cfg.sources →
      (sr.effAck = true ↔
        ((∃ e ∈ cfg.sinks, Reaches cfg k e.1) ∧
         (∀ e ∈ cfg.sinks, Reaches cfg k e.1 → e.2.acks = true)))) := by
  refine ⟨fun _ => rfl, ?_⟩
  intro o b cfg w hc k sr hmem
  unfold compile at hc
  cases hm : expand_transforms b with
  | error es => simp [hm] at hc
  | ok pr =>
    obtain ⟨exp, tr0⟩ := pr
    simp only [hm] at hc
    cases hg : o.graph_new (postBuilderOf b tr0) (to_string_expansions exp) with
    | error ge => simp [hg] at hc
    | ok g =>
      simp only [hg] at hc
      cases ht : collectResults b.tests with
      | error te => simp [ht] at hc
      | ok tests =>
        simp only [ht] at hc
        by_cases he : (preGraphErrors o b tr0 ++ errList g.typecheckResult ++
            cycleErrList g.cycleResult).isEmpty = true
        case neg => rw [if_neg he] at hc; cases hc
        case pos =>
        rw [if_pos he] at hc
        simp only [propagate_acknowledgements, Except.ok.injEq, Prod.mk.injEq] at hc
        rcases hc with ⟨hcfg, hw⟩
        subst hcfg
        unfold propagatedConfig at hmem
        rcases List.mem_map.mp hmem with ⟨ks, hks, heq⟩
        rcases Prod.mk.injEq .. |>.mp heq with ⟨hk, hsr⟩
        subst hk
        subst hsr
        exact computeEffAck_spec (materializedConfig b tr0 g tests exp) ks.1

/-- Witness for C9: in the compiled `S → T → {K1 (acks), K2 (acks)}`
config the source's effective flag is characterized by sink
reachability. -/
theorem c9_witness :
    (SourceResolved.mk [none] true).effAck = true ↔
      ((∃ e ∈ cfgAck.sinks, Reaches cfgAck "S" e.1) ∧
       (∀ e ∈ cfgAck.sinks, Reaches cfgAck "S" e.1 → e.2.acks = true)) :=
  c9_ack_propagation.2 oracShared bAck cfgAck [] (by decide) "S"
    (SourceResolved.mk [none] true) (by decide)

end VectorConfig
